/-
  Verification of `src/solanaOrderBook.js` (solana-trading-dex).

  This file gives a shallow embedding of the client module `SolanaOrderBook`:
  its pure arithmetic (order-book snapshot statistics, market-order price
  estimation, 24h market statistics) is translated to executable Lean
  functions over ℚ, and its effectful methods (placeLimitOrder,
  placeMarketOrder, cancelOrder, settleFunds, getMarket) are translated to
  functions over an explicit environment describing the outcome of every
  external SDK / RPC call, with exceptions modelled by `Except String`.
  Prices and sizes are JS numbers; they are modelled by ℚ, which is exact on
  every value appearing in the theorems below.
-/
import Mathlib

namespace SolanaDex

/-- An abstract Serum `Market` instance, as produced by the external
`Market.load` SDK call.  The module treats it as an opaque handle, so the
embedding only records an identity. -/
structure Market where
  marketId : ℕ
deriving DecidableEq, Repr

/-- One L2 order-book entry as built by `getOrderBook` from a
`[price, size, orderId]` triple returned by the SDK's `getL2`. -/
structure BookOrder where
  price : ℚ
  size : ℚ
  orderId : String
  side : String
deriving DecidableEq, Repr

/-- The object returned by `getOrderBook` (the `timestamp` field, a wall-clock
string, is omitted from the embedding). -/
structure OrderBookSnapshot where
  market : String
  bids : List BookOrder
  asks : List BookOrder
  spread : ℚ
  spreadPercentage : ℚ
deriving DecidableEq, Repr

/-- `bidItems` / `askItems` construction in `getOrderBook`: each L2 triple
`[price, size, orderId]` becomes an object tagged with the given side. -/
def mkItems (sideTag : String) (l2 : List (ℚ × ℚ × String)) : List BookOrder :=
  l2.map (fun t => { price := t.1, size := t.2.1, orderId := t.2.2, side := sideTag })

/-- `bidItems.length > 0 ? bidItems[0].price : 0` — the best price of a side,
0 when the side is empty. -/
def bestPrice : List BookOrder → ℚ
  | [] => 0
  | o :: _ => o.price

/-- `getOrderBook` (src/solanaOrderBook.js lines 66-114), given the two L2
lists the SDK returned for bids and asks.  Mirrors the source: best bid/ask
default to 0 on an empty side, `spread = bestAsk - bestBid`,
`spreadPercentage = bestBid > 0 ? spread / bestBid * 100 : 0`. -/
def getOrderBook (marketAddress : String)
    (bidsL2 asksL2 : List (ℚ × ℚ × String)) : OrderBookSnapshot :=
  let bidItems := mkItems "buy" bidsL2
  let askItems := mkItems "sell" asksL2
  let bestBid := bestPrice bidItems
  let bestAsk := bestPrice askItems
  let spread := bestAsk - bestBid
  let spreadPercentage := if bestBid > 0 then spread / bestBid * 100 else 0
  { market := marketAddress, bids := bidItems, asks := askItems,
    spread := spread, spreadPercentage := spreadPercentage }

/-! ### estimateMarketOrderPrice (lines 279-299) -/

/-- The `for (const order of orders)` loop of `estimateMarketOrderPrice`:
threads `(totalCost, remainingSize)`, takes `min(remainingSize, order.size)`
from each level, and breaks as soon as `remainingSize <= 0`. -/
def estimateLoop (totalCost remainingSize : ℚ) : List BookOrder → ℚ × ℚ
  | [] => (totalCost, remainingSize)
  | o :: os =>
    let sizeToTake := min remainingSize o.size
    let totalCost := totalCost + sizeToTake * o.price
    let remainingSize := remainingSize - sizeToTake
    if remainingSize ≤ 0 then (totalCost, remainingSize)
    else estimateLoop totalCost remainingSize os

/-- `estimateMarketOrderPrice` up to (but not including) the final division:
throws the insufficient-liquidity error when `remainingSize > 0` after the
loop, otherwise returns the numerator/denominator pair `(totalCost, size)` of
the unguarded quotient `totalCost / size`. -/
def estimateMarketOrderPriceRaw (orders : List BookOrder) (size : ℚ) :
    Except String (ℚ × ℚ) :=
  let r := estimateLoop 0 size orders
  if r.2 > 0 then
    Except.error "Insufficient liquidity to execute market order of this size"
  else Except.ok (r.1, size)

/-- `estimateMarketOrderPrice` (lines 279-299): the raw computation followed by
the division `totalCost / size`.  (JS performs this division on floats; on the
inputs of the theorems below the values are exact, and the `size = 0` case is
discussed through `estimateMarketOrderPriceRaw`, whose result pair `(0, 0)`
records the unguarded quotient.) -/
def estimateMarketOrderPrice (orders : List BookOrder) (size : ℚ) :
    Except String ℚ :=
  (estimateMarketOrderPriceRaw orders size).map (fun p => p.1 / p.2)

/-- The list of `(sizeToTake, price)` pairs the loop consumes, in list order:
the "consumed levels" of a market-order estimate. -/
def consumedLevels (remainingSize : ℚ) : List BookOrder → List (ℚ × ℚ)
  | [] => []
  | o :: os =>
    let sizeToTake := min remainingSize o.size
    if remainingSize - sizeToTake ≤ 0 then [(sizeToTake, o.price)]
    else (sizeToTake, o.price) :: consumedLevels (remainingSize - sizeToTake) os

/-! ### getMarketStats (lines 515-571): 24h statistics over recent trades -/

/-- One formatted trade from `getRecentTrades`; `time` is the trade's
timestamp in epoch milliseconds (the source stores it as an ISO string and
re-parses it with `new Date(trade.time).getTime()`). -/
structure Trade where
  price : ℚ
  size : ℚ
  time : ℤ
deriving DecidableEq, Repr

/-- `new Date(trade.time).getTime() >= oneDayAgo` with
`oneDayAgo = now - 24*60*60*1000`. -/
def inWindow (now : ℤ) (t : Trade) : Bool :=
  now - 24 * 60 * 60 * 1000 ≤ t.time

/-- The statistics fields of the object returned by `getMarketStats` that
depend on `recentTrades` (order-book derived fields are those of
`getOrderBook` above). -/
structure MarketStats where
  lastPrice : ℚ
  priceChange : ℚ
  volume24h : ℚ
deriving DecidableEq, Repr

/-- The `recentTrades`-derived part of `getMarketStats` (lines 521-537):
`lastPrice` is `recentTrades[0].price` (0 if no trades);
`oldestTradeInWindow` is `.filter(in window).pop()`, i.e. the last element of
the filtered list; `priceChange` applies the percentage formula when it
exists and is 0 otherwise; `volume24h` reduces `price * size` over the
filtered list. -/
def getMarketStats (now : ℤ) (recentTrades : List Trade) : MarketStats :=
  let lastPrice := match recentTrades with
    | [] => 0
    | t :: _ => t.price
  let tradesInWindow := recentTrades.filter (inWindow now)
  let priceChange := match tradesInWindow.getLast? with
    | some oldestTradeInWindow =>
        (lastPrice - oldestTradeInWindow.price) / oldestTradeInWindow.price * 100
    | none => 0
  let volume24h := tradesInWindow.foldl (fun total t => total + t.price * t.size) 0
  { lastPrice := lastPrice, priceChange := priceChange, volume24h := volume24h }

/-! ### Effectful operations

Each `async` method wraps its body in `try { ... } catch (error) { ... }`.
The body performs external calls (SDK loads, `sendTransaction`, ...) that may
throw; an environment record fixes the outcome of each such call, and the
body is a computation in `Except String`.  The surrounding `catch` converts a
thrown error into the plain object `{ success: false, error }`. -/

/-- The plain result object returned by the mutating methods.  A field that
the source leaves `undefined` on some path is an `Option` that is `none`
there. -/
structure OpResult where
  success : Bool
  txid : Option String := none
  error : Option String := none
  market : Option String := none
  side : Option String := none
  price : Option ℚ := none
  size : Option ℚ := none
  orderType : Option String := none
  clientId : Option String := none
  orderId : Option ℕ := none
deriving DecidableEq, Repr

/-- Parameters of `placeLimitOrder` (lines 121-131).  `orderType` and
`selfTradeBehavior` are `Option`s: `none` models an absent property, on which
the destructuring defaults `'limit'` / `'decrementTake'` fire. -/
structure PlaceOrderParams where
  marketAddress : String
  side : String
  price : ℚ
  size : ℚ
  orderType : Option String := none
  clientId : Option ℕ := none
  selfTradeBehavior : Option String := none

/-- The argument object of `market.makePlaceOrderInstruction` (lines 182-194),
with public keys and addresses as strings and lot amounts as integers. -/
structure PlaceOrderInstruction where
  owner : String
  payer : String
  side : String
  price : ℤ
  size : ℤ
  orderType : String
  clientId : Option ℕ
  openOrdersAddressKey : String
  feeDiscountPubkey : Option String
  selfTradeBehavior : String
deriving DecidableEq, Repr

/-- Outcomes of the external calls `placeLimitOrder` makes, in program order:
`Market.load` (via `getMarket`), the first `findOpenOrdersAccountsForOwner`,
the create-account `sendTransaction` + `confirmTransaction`, the refreshed
`findOpenOrdersAccountsForOwner`, the lot conversions, and the final
`sendTransaction`. -/
structure LimitEnv where
  market : Except String Market
  findOpenOrders1 : Except String (List String)
  createSend : Except String String
  confirmTx : Except String Unit
  findOpenOrders2 : Except String (List String)
  priceNumberToLots : ℚ → ℤ
  baseSizeNumberToLots : ℚ → ℤ
  placeSend : Except String String
  feeDiscountPubkey : Option String := none

/-- The `try` body of `placeLimitOrder` (lines 133-212): resolve the market,
find or create an OpenOrders account, take the first account's address
(indexing an empty array throws a TypeError, modelled as an error string),
build the place-order instruction and send it. -/
def placeLimitOrderBody (env : LimitEnv) (wallet : String) (p : PlaceOrderParams) :
    Except String (PlaceOrderInstruction × String) := do
  let _market ← env.market
  let accounts ← env.findOpenOrders1
  let accounts ← if accounts.isEmpty then do
      let _createTxid ← env.createSend
      let _ ← env.confirmTx
      env.findOpenOrders2
    else pure accounts
  match accounts with
  | [] => Except.error "Cannot read properties of undefined (reading 'address')"
  | openOrdersAddress :: _ =>
    let orderType := p.orderType.getD "limit"
    let selfTradeBehavior := p.selfTradeBehavior.getD "decrementTake"
    let instr : PlaceOrderInstruction :=
      { owner := wallet
        payer := if p.side = "buy" then wallet else openOrdersAddress
        side := p.side
        price := env.priceNumberToLots p.price
        size := env.baseSizeNumberToLots p.size
        orderType := orderType
        clientId := p.clientId
        openOrdersAddressKey := openOrdersAddress
        feeDiscountPubkey := env.feeDiscountPubkey
        selfTradeBehavior := selfTradeBehavior }
    let txid ← env.placeSend
    pure (instr, txid)

/-- `placeLimitOrder` (lines 121-220): the body under the `catch` that turns a
thrown error into `{ success: false, error: error.message }`, and the success
object of lines 203-212. -/
def placeLimitOrder (env : LimitEnv) (wallet : String) (p : PlaceOrderParams) :
    OpResult :=
  match placeLimitOrderBody env wallet p with
  | Except.ok (_instr, txid) =>
    { success := true, txid := some txid, market := some p.marketAddress,
      side := some p.side, price := some p.price, size := some p.size,
      orderType := some (p.orderType.getD "limit"),
      clientId := p.clientId.map toString }
  | Except.error e => { success := false, error := some e }

/-- Parameters of `placeMarketOrder` (lines 228-235): no price, `orderType`
defaults to `'ioc'`. -/
structure MarketOrderParams where
  marketAddress : String
  side : String
  size : ℚ
  orderType : Option String := none
  clientId : Option ℕ := none

/-- Environment of `placeMarketOrder`: its own `getMarket` call, the L2 bids
and asks its `getOrderBook` call loads, and the environment of the delegated
`placeLimitOrder`. -/
structure MarketEnv where
  market : Except String Market
  l2 : Except String (List (ℚ × ℚ × String) × List (ℚ × ℚ × String))
  limitEnv : LimitEnv

/-- The estimation phase of `placeMarketOrder` (lines 237-251): fetch the
market and the book, then estimate from the opposing side; any throw inside
(including the insufficient-liquidity error) propagates to the `catch`. -/
def placeMarketOrderEstimate (env : MarketEnv) (p : MarketOrderParams) :
    Except String ℚ := do
  let _market ← env.market
  let l2 ← env.l2
  let orderBook := getOrderBook p.marketAddress l2.1 l2.2
  if p.side = "buy" then estimateMarketOrderPrice orderBook.asks p.size
  else estimateMarketOrderPrice orderBook.bids p.size

/-- `placeMarketOrder` (lines 227-270): fetch the book, estimate the price
from the opposing side (asks for a buy, bids for a sell) — this may throw the
insufficient-liquidity error, caught into `{success: false, error}` — then
delegate to `placeLimitOrder` with `price = estimatedPrice * 1.05` and
`orderType` defaulted to `'ioc'` (no `selfTradeBehavior` is passed). -/
def placeMarketOrder (env : MarketEnv) (wallet : String) (p : MarketOrderParams) :
    OpResult :=
  match placeMarketOrderEstimate env p with
  | Except.error e => { success := false, error := some e }
  | Except.ok estimatedPrice =>
    placeLimitOrder env.limitEnv wallet
      { marketAddress := p.marketAddress
        side := p.side
        price := estimatedPrice * (105 / 100)
        size := p.size
        orderType := some (p.orderType.getD "ioc")
        clientId := p.clientId
        selfTradeBehavior := none }

/-- Parameters of `cancelOrder` (lines 307-313). -/
structure CancelParams where
  marketAddress : String
  orderId : ℕ
  side : String
  openOrdersAddress : Option String := none

/-- Environment of `cancelOrder`: `getMarket`, the
`findOpenOrdersAccountsForOwner` lookup used when no `openOrdersAddress` is
given, and the cancel `sendTransaction`. -/
structure CancelEnv where
  market : Except String Market
  findOpenOrders : Except String (List String)
  cancelSend : Except String String

/-- The `try` body of `cancelOrder`: market, OpenOrders account resolution,
cancel transaction; returns the transaction id. -/
def cancelOrderBody (env : CancelEnv) (p : CancelParams) : Except String String := do
  let _market ← env.market
  let _openOrdersAccount ← match p.openOrdersAddress with
    | some a => pure a
    | none => do
        let accounts ← env.findOpenOrders
        match accounts with
        | [] => Except.error "Cannot read properties of undefined (reading 'address')"
        | a :: _ => pure a
  env.cancelSend

/-- `cancelOrder` (lines 306-357): resolve the market, resolve the OpenOrders
account (indexing `[0].address` on an empty result throws, modelled as an
error string), send the cancel instruction; the `catch` yields
`{success: false, error}`, success yields `{success, txid, market, orderId}`. -/
def cancelOrder (env : CancelEnv) (p : CancelParams) : OpResult :=
  match cancelOrderBody env p with
  | Except.ok txid =>
    { success := true, txid := some txid, market := some p.marketAddress,
      orderId := some p.orderId }
  | Except.error e => { success := false, error := some e }

/-- Parameters of `settleFunds` (lines 365-369). -/
structure SettleParams where
  marketAddress : String
  openOrdersAddress : Option String := none

/-- Environment of `settleFunds`: `getMarket`, the
`findOpenOrdersAccountsForOwner` lookup used when no address is given, and
the settle `sendTransaction`. -/
structure SettleEnv where
  market : Except String Market
  findOpenOrders : Except String (List String)
  settleSend : Except String String

/-- The OpenOrders-account resolution of `settleFunds` (lines 371-385). -/
def settleFundsAccounts (env : SettleEnv) (p : SettleParams) :
    Except String (List String) := do
  let _market ← env.market
  match p.openOrdersAddress with
  | some a => pure [a]
  | none => env.findOpenOrders

/-- `settleFunds` (lines 364-427): resolve the market and the OpenOrders
accounts; with no account it returns `{success: false, error: 'No open
orders account found'}` without throwing; otherwise it sends the settle
transaction; any thrown error is caught into `{success: false, error}`. -/
def settleFunds (env : SettleEnv) (p : SettleParams) : OpResult :=
  match settleFundsAccounts env p with
  | Except.error e => { success := false, error := some e }
  | Except.ok accounts =>
    if accounts.isEmpty then
      { success := false, error := some "No open orders account found" }
    else
      match env.settleSend with
      | Except.ok txid =>
        { success := true, txid := some txid, market := some p.marketAddress }
      | Except.error e => { success := false, error := some e }

/-! ### getMarket and the market cache (lines 26-58) -/

/-- The mutable state of a `SolanaOrderBook` instance that `getMarket`
touches: the `marketCache` Map, modelled as an association list in insertion
order (`Map.set` on a fresh key appends). -/
structure CacheState where
  marketCache : List (String × Market)
deriving DecidableEq, Repr

/-- The constructor (lines 26-31) starts with `new Map()`. -/
def initialCacheState : CacheState := { marketCache := [] }

/-- `getMarket` (lines 38-58), with `load` fixing the outcome of the external
`Market.load` for each address.  On a cache hit the cached instance is
returned unchanged and no load happens; on a miss a successful load is stored
in the cache and returned; a failed load is rethrown as
`Failed to load market: ...` and caches nothing.  The returned `ℕ` counts the
`Market.load` network calls performed (0 or 1). -/
def getMarket (load : String → Except String Market) (st : CacheState)
    (marketAddress : String) : Except String (Market × CacheState) × ℕ :=
  match st.marketCache.lookup marketAddress with
  | some market => (Except.ok (market, st), 0)
  | none =>
    match load marketAddress with
    | Except.ok market =>
      (Except.ok (market, { marketCache := st.marketCache ++ [(marketAddress, market)] }), 1)
    | Except.error e =>
      (Except.error ("Failed to load market: " ++ e), 1)

/-- The cache state after a `getMarket` call (unchanged when the call threw:
the `catch` of `getMarket` rethrows without touching the cache). -/
def getMarketState (load : String → Except String Market) (st : CacheState)
    (marketAddress : String) : CacheState :=
  match (getMarket load st marketAddress).1 with
  | Except.ok (_, st') => st'
  | Except.error _ => st

/-- Every method of `SolanaOrderBook` reads or writes `marketCache` only
through `this.getMarket(...)` calls; a run of the object is therefore, as far
as the cache is concerned, a sequence of `getMarket` calls.  `runGetMarkets`
folds such a sequence over the cache state. -/
def runGetMarkets (calls : List ((String → Except String Market) × String))
    (st : CacheState) : CacheState :=
  calls.foldl (fun s c => getMarketState c.1 s c.2) st

/-! ## Basic projection lemmas for getOrderBook -/

theorem getOrderBook_bids (a : String) (bl al : List (ℚ × ℚ × String)) :
    (getOrderBook a bl al).bids = mkItems "buy" bl := rfl

theorem getOrderBook_asks (a : String) (bl al : List (ℚ × ℚ × String)) :
    (getOrderBook a bl al).asks = mkItems "sell" al := rfl

theorem getOrderBook_spread (a : String) (bl al : List (ℚ × ℚ × String)) :
    (getOrderBook a bl al).spread
      = bestPrice (mkItems "sell" al) - bestPrice (mkItems "buy" bl) := rfl

theorem getOrderBook_spreadPercentage (a : String) (bl al : List (ℚ × ℚ × String)) :
    (getOrderBook a bl al).spreadPercentage
      = if bestPrice (mkItems "buy" bl) > 0 then
          (bestPrice (mkItems "sell" al) - bestPrice (mkItems "buy" bl))
            / bestPrice (mkItems "buy" bl) * 100
        else 0 := rfl

/-! ## C1: the spread field of getOrderBook -/

/-- C1 (counterexample): with an empty bids list and a single ask at price 5,
`getOrderBook` returns spread = 5, a value that is neither 0 nor absent, so
the claim "whenever either side is empty the returned spread is 0 or
undefined" is false of the code. -/
theorem C1_counterexample :
    (getOrderBook "MKT" [] [(5, 1, "a")]).bids = []
    ∧ (getOrderBook "MKT" [] [(5, 1, "a")]).spread = 5
    ∧ (getOrderBook "MKT" [] [(5, 1, "a")]).spread ≠ 0 := by
  refine ⟨rfl, ?_, ?_⟩ <;> norm_num [getOrderBook, mkItems, bestPrice]

/-- C1 (amended): the spread returned by `getOrderBook` always equals
bestAsk − bestBid where an empty side contributes a best price of 0; it is 0
when both sides are empty, but when exactly one side is empty it equals the
nonempty side's best price (negated when the asks are empty), not 0 or
undefined. -/
theorem C1_spread (marketAddress : String) (bidsL2 asksL2 : List (ℚ × ℚ × String)) :
    (getOrderBook marketAddress bidsL2 asksL2).spread
        = bestPrice (getOrderBook marketAddress bidsL2 asksL2).asks
          - bestPrice (getOrderBook marketAddress bidsL2 asksL2).bids
    ∧ ((getOrderBook marketAddress bidsL2 asksL2).bids = [] →
        (getOrderBook marketAddress bidsL2 asksL2).asks = [] →
        (getOrderBook marketAddress bidsL2 asksL2).spread = 0)
    ∧ ((getOrderBook marketAddress bidsL2 asksL2).bids = [] →
        (getOrderBook marketAddress bidsL2 asksL2).spread
          = bestPrice (getOrderBook marketAddress bidsL2 asksL2).asks)
    ∧ ((getOrderBook marketAddress bidsL2 asksL2).asks = [] →
        (getOrderBook marketAddress bidsL2 asksL2).spread
          = - bestPrice (getOrderBook marketAddress bidsL2 asksL2).bids) := by
  refine ⟨rfl, ?_, ?_, ?_⟩
  · intro hb ha
    rw [getOrderBook_spread, getOrderBook_bids] at *
    rw [getOrderBook_asks] at ha
    rw [hb, ha]
    norm_num [bestPrice]
  · intro hb
    rw [getOrderBook_spread, getOrderBook_bids] at *
    rw [getOrderBook_asks, hb]
    norm_num [bestPrice]
  · intro ha
    rw [getOrderBook_spread, getOrderBook_asks] at *
    rw [getOrderBook_bids, ha]
    norm_num [bestPrice]

/-- Witness for C1: the amended statement applied at a book with one bid at 4
and one ask at 6, and at the counterexample's one-sided book. -/
theorem C1_spread_witness :
    (getOrderBook "MKT" [(4, 1, "b")] [(6, 1, "a")]).spread = 2
    ∧ (getOrderBook "MKT" [] []).bids = []
    ∧ (getOrderBook "MKT" [] []).spread = 0 := by
  have h2 := (C1_spread "MKT" [] []).2.1 rfl rfl
  have h1 := (C1_spread "MKT" [(4, 1, "b")] [(6, 1, "a")]).1
  refine ⟨?_, rfl, h2⟩
  rw [h1]
  norm_num [getOrderBook, mkItems, bestPrice]

/-! ## C5: the spreadPercentage field of getOrderBook -/

/-- C5: `spreadPercentage` equals `spread / bestBid * 100` whenever the best
bid price is strictly positive, and equals 0 when the best bid price is 0; in
particular it is 0 when the bids list is empty. -/
theorem C5_spreadPercentage (marketAddress : String)
    (bidsL2 asksL2 : List (ℚ × ℚ × String)) :
    (0 < bestPrice (getOrderBook marketAddress bidsL2 asksL2).bids →
      (getOrderBook marketAddress bidsL2 asksL2).spreadPercentage
        = (getOrderBook marketAddress bidsL2 asksL2).spread
            / bestPrice (getOrderBook marketAddress bidsL2 asksL2).bids * 100)
    ∧ (bestPrice (getOrderBook marketAddress bidsL2 asksL2).bids = 0 →
      (getOrderBook marketAddress bidsL2 asksL2).spreadPercentage = 0)
    ∧ (bidsL2 = [] →
      (getOrderBook marketAddress bidsL2 asksL2).spreadPercentage = 0) := by
  rw [getOrderBook_spreadPercentage, getOrderBook_spread, getOrderBook_bids]
  refine ⟨fun h => ?_, fun h => ?_, fun h => ?_⟩
  · rw [if_pos h]
  · rw [if_neg]
    rw [h]
    norm_num
  · rw [if_neg]
    rw [h]
    norm_num [mkItems, bestPrice]

/-- Witness for C5: both branches at concrete books — bids [(4,1)] / asks
[(6,1)] gives spreadPercentage 50, an empty bids side gives 0. -/
theorem C5_spreadPercentage_witness :
    (0:ℚ) < bestPrice (getOrderBook "MKT" [(4, 1, "b")] [(6, 1, "a")]).bids
    ∧ (getOrderBook "MKT" [(4, 1, "b")] [(6, 1, "a")]).spreadPercentage = 50
    ∧ (getOrderBook "MKT" [] [(6, 1, "a")]).spreadPercentage = 0 := by
  have hb : (0:ℚ) < bestPrice (getOrderBook "MKT" [(4, 1, "b")] [(6, 1, "a")]).bids := by
    rw [getOrderBook_bids]
    norm_num [mkItems, bestPrice]
  have h1 := (C5_spreadPercentage "MKT" [(4, 1, "b")] [(6, 1, "a")]).1 hb
  have h2 := (C5_spreadPercentage "MKT" [] [(6, 1, "a")]).2.2 rfl
  refine ⟨hb, ?_, h2⟩
  rw [h1, getOrderBook_spread, getOrderBook_bids]
  norm_num [mkItems, bestPrice]

/-! ## C4: the 24h volume of getMarketStats -/

theorem foldl_add_eq_sum (f : Trade → ℚ) (l : List Trade) (a : ℚ) :
    l.foldl (fun total t => total + f t) a = a + (l.map f).sum := by
  induction l generalizing a with
  | nil => simp
  | cons t ts ih =>
    simp only [List.foldl_cons, List.map_cons, List.sum_cons]
    rw [ih]
    ring

/-- C4: `volume24h` is the sum of `price * size` over exactly the trades
whose timestamp lies in the trailing 24-hour window, and a trade outside the
window contributes nothing. -/
theorem C4_volume24h (now : ℤ) (recentTrades : List Trade) :
    (getMarketStats now recentTrades).volume24h
      = ((recentTrades.filter (inWindow now)).map (fun t => t.price * t.size)).sum
    ∧ ∀ t, inWindow now t = false →
        (getMarketStats now (t :: recentTrades)).volume24h
          = (getMarketStats now recentTrades).volume24h := by
  have hvol : ∀ l : List Trade,
      (getMarketStats now l).volume24h
        = ((l.filter (inWindow now)).map (fun t => t.price * t.size)).sum := by
    intro l
    show (l.filter (inWindow now)).foldl (fun total t => total + t.price * t.size) 0
        = ((l.filter (inWindow now)).map (fun t => t.price * t.size)).sum
    rw [foldl_add_eq_sum (fun t => t.price * t.size)]
    ring
  refine ⟨hvol recentTrades, fun t ht => ?_⟩
  rw [hvol, hvol, List.filter_cons_of_neg]
  simp [ht]

/-- Witness for C4: with one in-window trade (price 100, size 2) and one
25-hour-old trade (price 7, size 3), the volume is 200 and prepending another
out-of-window trade leaves it unchanged. -/
theorem C4_volume24h_witness :
    (getMarketStats 100000000 [⟨100, 2, 99999000⟩, ⟨7, 3, 8000000⟩]).volume24h = 200
    ∧ (getMarketStats 100000000
        [⟨9, 9, 5⟩, ⟨100, 2, 99999000⟩, ⟨7, 3, 8000000⟩]).volume24h
      = (getMarketStats 100000000 [⟨100, 2, 99999000⟩, ⟨7, 3, 8000000⟩]).volume24h := by
  have h := C4_volume24h 100000000 [⟨100, 2, 99999000⟩, ⟨7, 3, 8000000⟩]
  refine ⟨?_, h.2 ⟨9, 9, 5⟩ (by decide)⟩
  rw [h.1]
  norm_num [inWindow, List.filter]

/-! ## C6: default self-trade behavior of placeLimitOrder -/

theorem exc_bind_ok {α β : Type} (a : α) (f : α → Except String β) :
    (Except.ok a : Except String α) >>= f = f a := rfl

/-- C6: when no `selfTradeBehavior` is passed, the place-order instruction
built by `placeLimitOrder` carries the default policy `decrementTake`. -/
theorem C6_default_selfTradeBehavior (env : LimitEnv) (wallet : String)
    (p : PlaceOrderParams) (hnone : p.selfTradeBehavior = none)
    (instr : PlaceOrderInstruction) (txid : String)
    (h : placeLimitOrderBody env wallet p = Except.ok (instr, txid)) :
    instr.selfTradeBehavior = "decrementTake" := by
  unfold placeLimitOrderBody at h
  rcases hm : env.market with e | m <;> rw [hm] at h
  · exact Except.noConfusion h
  rw [exc_bind_ok] at h
  rcases h1 : env.findOpenOrders1 with e | accounts1 <;> rw [h1] at h
  · exact Except.noConfusion h
  rw [exc_bind_ok] at h
  by_cases he : accounts1.isEmpty
  · rw [if_pos he] at h
    rcases hc : env.createSend with e | ctx <;> rw [hc] at h
    · exact Except.noConfusion h
    rw [exc_bind_ok] at h
    rcases hcf : env.confirmTx with e | u <;> rw [hcf] at h
    · exact Except.noConfusion h
    rw [exc_bind_ok] at h
    rcases h2 : env.findOpenOrders2 with e | accounts2 <;> rw [h2] at h
    · exact Except.noConfusion h
    rw [exc_bind_ok] at h
    rcases accounts2 with _ | ⟨a, rest⟩
    · exact Except.noConfusion h
    rcases hp : env.placeSend with e | tx <;> rw [hp] at h
    · exact Except.noConfusion h
    injection h with hpair
    injection hpair with hinstr htx
    rw [← hinstr]
    simp [hnone]
  · rw [if_neg he] at h
    rw [show (pure accounts1 : Except String (List String)) = Except.ok accounts1 from rfl] at h
    rw [exc_bind_ok] at h
    rcases accounts1 with _ | ⟨a, rest⟩
    · simp at he
    rcases hp : env.placeSend with e | tx <;> rw [hp] at h
    · exact Except.noConfusion h
    injection h with hpair
    injection hpair with hinstr htx
    rw [← hinstr]
    simp [hnone]

/-- An environment in which every external call succeeds. -/
def limitEnvOk : LimitEnv :=
  { market := Except.ok { marketId := 1 }
    findOpenOrders1 := Except.ok ["OO1"]
    createSend := Except.ok "ctx"
    confirmTx := Except.ok ()
    findOpenOrders2 := Except.ok []
    priceNumberToLots := fun _ => 1000
    baseSizeNumberToLots := fun _ => 20
    placeSend := Except.ok "tx1" }

/-- Limit-order parameters with no `selfTradeBehavior` (and no `orderType`). -/
def limitParamsW : PlaceOrderParams :=
  { marketAddress := "MKT", side := "buy", price := 10, size := 2 }

/-- The instruction `placeLimitOrderBody limitEnvOk "W" limitParamsW` builds. -/
def instrW : PlaceOrderInstruction :=
  { owner := "W", payer := "W", side := "buy", price := 1000, size := 20,
    orderType := "limit", clientId := none, openOrdersAddressKey := "OO1",
    feeDiscountPubkey := none, selfTradeBehavior := "decrementTake" }

/-- Witness for C6: a concrete all-successful run with no `selfTradeBehavior`
parameter yields an instruction with policy `decrementTake`. -/
theorem C6_default_selfTradeBehavior_witness :
    limitParamsW.selfTradeBehavior = none
    ∧ instrW.selfTradeBehavior = "decrementTake" :=
  ⟨rfl, C6_default_selfTradeBehavior limitEnvOk "W" limitParamsW rfl instrW "tx1" rfl⟩

/-! ## C7: mutating operations return plain success/failure objects -/

/-- The shape of the claim: either a success object (`success: true`, a
transaction id, no error) or a failure object (`success: false`, an error
message, no transaction id); no exception escapes (the operations are total
functions into `OpResult` by construction of the `catch` wrappers). -/
abbrev wellFormedResult (r : OpResult) : Prop :=
  (r.success = true ∧ r.error = none ∧ r.txid.isSome = true) ∨
  (r.success = false ∧ r.error.isSome = true ∧ r.txid = none)

theorem wellFormed_placeLimitOrder (env : LimitEnv) (wallet : String)
    (p : PlaceOrderParams) : wellFormedResult (placeLimitOrder env wallet p) := by
  unfold placeLimitOrder
  rcases hb : placeLimitOrderBody env wallet p with e | ⟨i, t⟩
  · exact Or.inr ⟨rfl, rfl, rfl⟩
  · exact Or.inl ⟨rfl, rfl, rfl⟩

theorem wellFormed_placeMarketOrder (env : MarketEnv) (wallet : String)
    (p : MarketOrderParams) : wellFormedResult (placeMarketOrder env wallet p) := by
  unfold placeMarketOrder
  rcases hb : placeMarketOrderEstimate env p with e | est
  · exact Or.inr ⟨rfl, rfl, rfl⟩
  · exact wellFormed_placeLimitOrder env.limitEnv wallet _

theorem wellFormed_cancelOrder (env : CancelEnv) (p : CancelParams) :
    wellFormedResult (cancelOrder env p) := by
  unfold cancelOrder
  rcases hb : cancelOrderBody env p with e | t
  · exact Or.inr ⟨rfl, rfl, rfl⟩
  · exact Or.inl ⟨rfl, rfl, rfl⟩

theorem wellFormed_settleFunds (env : SettleEnv) (p : SettleParams) :
    wellFormedResult (settleFunds env p) := by
  unfold settleFunds
  rcases hb : settleFundsAccounts env p with e | accounts
  · exact Or.inr ⟨rfl, rfl, rfl⟩
  rcases accounts with _ | ⟨a, rest⟩
  · exact Or.inr ⟨rfl, rfl, rfl⟩
  · rcases hs : env.settleSend with e | t
    · exact Or.inr ⟨rfl, rfl, rfl⟩
    · exact Or.inl ⟨rfl, rfl, rfl⟩

/-- C7: `placeLimitOrder`, `placeMarketOrder`, `cancelOrder` and
`settleFunds` are total functions into plain result objects: for every
environment (i.e. every outcome of the external calls) and every parameter
object, the result is either `{success: true, txid, ...}` with no error field
or `{success: false, error}` with no txid; no exception propagates. -/
theorem C7_result_objects (envL : LimitEnv) (envM : MarketEnv) (envC : CancelEnv)
    (envS : SettleEnv) (wallet : String) (pL : PlaceOrderParams)
    (pM : MarketOrderParams) (pC : CancelParams) (pS : SettleParams) :
    wellFormedResult (placeLimitOrder envL wallet pL)
    ∧ wellFormedResult (placeMarketOrder envM wallet pM)
    ∧ wellFormedResult (cancelOrder envC pC)
    ∧ wellFormedResult (settleFunds envS pS) :=
  ⟨wellFormed_placeLimitOrder envL wallet pL,
   wellFormed_placeMarketOrder envM wallet pM,
   wellFormed_cancelOrder envC pC,
   wellFormed_settleFunds envS pS⟩

/-! ## Lemmas about the estimateMarketOrderPrice loop -/

/-- After the loop, the remaining size is strictly positive (the condition of
the insufficient-liquidity throw) exactly when the book's total size is
smaller than the request. -/
theorem estimateLoop_remaining_pos (l : List BookOrder) :
    ∀ c r : ℚ, (∀ o ∈ l, 0 ≤ o.size) →
      (0 < (estimateLoop c r l).2 ↔ (l.map BookOrder.size).sum < r) := by
  induction l with
  | nil =>
    intro c r _
    simp [estimateLoop]
  | cons o os ih =>
    intro c r h
    have hsum : 0 ≤ (os.map BookOrder.size).sum := by
      apply List.sum_nonneg
      intro x hx
      obtain ⟨o', ho', rfl⟩ := List.mem_map.mp hx
      exact h o' (List.mem_cons_of_mem _ ho')
    have hmin : min r o.size ≤ o.size := min_le_right _ _
    simp only [estimateLoop, List.map_cons, List.sum_cons]
    by_cases hbr : r - min r o.size ≤ 0
    · rw [if_pos hbr]
      simp only []
      constructor
      · intro hpos
        linarith
      · intro hlt
        linarith
    · rw [if_neg hbr]
      push_neg at hbr
      have hos : o.size ≤ r := by
        by_contra hgt
        push_neg at hgt
        rw [min_eq_left (le_of_lt hgt)] at hbr
        linarith
      rw [min_eq_right hos] at hbr ⊢
      rw [ih _ _ (fun o' ho' => h o' (List.mem_cons_of_mem _ ho'))]
      constructor <;> intro <;> linarith

/-- A request of size 0 leaves the loop with totalCost 0 and remainingSize 0
(the first level contributes `min(0, size) = 0` and the loop breaks). -/
theorem estimateLoop_zero (l : List BookOrder) (h : ∀ o ∈ l, 0 ≤ o.size) :
    estimateLoop 0 0 l = (0, 0) := by
  cases l with
  | nil => rfl
  | cons o os =>
    have h0 : min (0:ℚ) o.size = 0 := min_eq_left (h o (by simp))
    simp [estimateLoop, h0]

/-- The loop's totalCost is the accumulator plus the sum of
`sizeToTake * price` over the consumed levels. -/
theorem estimateLoop_cost (l : List BookOrder) :
    ∀ c r : ℚ, (estimateLoop c r l).1
      = c + ((consumedLevels r l).map (fun tp => tp.1 * tp.2)).sum := by
  induction l with
  | nil =>
    intro c r
    simp [estimateLoop, consumedLevels]
  | cons o os ih =>
    intro c r
    simp only [estimateLoop, consumedLevels]
    by_cases hbr : r - min r o.size ≤ 0
    · rw [if_pos hbr, if_pos hbr]
      simp
    · rw [if_neg hbr, if_neg hbr]
      rw [ih]
      simp only [List.map_cons, List.sum_cons]
      ring

/-- When `0 < size ≤` the total size on the book, the consumed
`sizeToTake`s sum to exactly the requested size. -/
theorem consumedLevels_takes (l : List BookOrder) :
    ∀ r : ℚ, 0 < r → r ≤ (l.map BookOrder.size).sum →
      ((consumedLevels r l).map Prod.fst).sum = r := by
  induction l with
  | nil =>
    intro r h0 hle
    simp only [List.map_nil, List.sum_nil] at hle ⊢
    linarith
  | cons o os ih =>
    intro r h0 hle
    simp only [List.map_cons, List.sum_cons] at hle
    simp only [consumedLevels]
    by_cases hbr : r - min r o.size ≤ 0
    · rw [if_pos hbr]
      have hro : r ≤ o.size := by
        by_contra hgt
        push_neg at hgt
        rw [min_eq_right (le_of_lt hgt)] at hbr
        linarith
      rw [min_eq_left hro]
      simp
    · rw [if_neg hbr]
      push_neg at hbr
      have hos : o.size ≤ r := by
        by_contra hgt
        push_neg at hgt
        rw [min_eq_left (le_of_lt hgt)] at hbr
        linarith
      rw [min_eq_right hos] at hbr ⊢
      simp only [List.map_cons, List.sum_cons]
      rw [ih (r - o.size) (by linarith) (by linarith)]
      ring

/-- With strictly positive level sizes and a positive remaining request,
every consumed `sizeToTake` is nonnegative. -/
theorem consumedLevels_take_nonneg (l : List BookOrder) :
    ∀ r : ℚ, 0 < r → (∀ o ∈ l, 0 < o.size) →
      ∀ tp ∈ consumedLevels r l, 0 ≤ tp.1 := by
  induction l with
  | nil =>
    intro r _ _ tp htp
    simp [consumedLevels] at htp
  | cons o os ih =>
    intro r h0 hsz tp htp
    have hmin : (0:ℚ) ≤ min r o.size :=
      le_min h0.le (hsz o (by simp)).le
    simp only [consumedLevels] at htp
    by_cases hbr : r - min r o.size ≤ 0
    · rw [if_pos hbr] at htp
      simp only [List.mem_singleton] at htp
      rw [htp]
      exact hmin
    · rw [if_neg hbr] at htp
      push_neg at hbr
      rcases List.mem_cons.mp htp with h | h
      · rw [h]
        exact hmin
      · exact ih (r - min r o.size) hbr
          (fun o' ho' => hsz o' (List.mem_cons_of_mem _ ho')) tp h

/-- Weighted-sum lower bound: if every weight is nonnegative and every value
is at least `lo`, the weighted sum is at least `lo` times the total weight. -/
theorem weighted_sum_lower (L : List (ℚ × ℚ)) (lo : ℚ)
    (hw : ∀ tp ∈ L, 0 ≤ tp.1) (hb : ∀ tp ∈ L, lo ≤ tp.2) :
    lo * (L.map Prod.fst).sum ≤ (L.map (fun tp => tp.1 * tp.2)).sum := by
  induction L with
  | nil => simp
  | cons tp L ih =>
    simp only [List.map_cons, List.sum_cons]
    have h1 : 0 ≤ tp.1 := hw tp (by simp)
    have h2 : lo ≤ tp.2 := hb tp (by simp)
    have ihh := ih (fun q hq => hw q (List.mem_cons_of_mem _ hq))
      (fun q hq => hb q (List.mem_cons_of_mem _ hq))
    nlinarith [mul_le_mul_of_nonneg_left h2 h1]

/-- Weighted-sum upper bound, dual to `weighted_sum_lower`. -/
theorem weighted_sum_upper (L : List (ℚ × ℚ)) (hi : ℚ)
    (hw : ∀ tp ∈ L, 0 ≤ tp.1) (hb : ∀ tp ∈ L, tp.2 ≤ hi) :
    (L.map (fun tp => tp.1 * tp.2)).sum ≤ hi * (L.map Prod.fst).sum := by
  induction L with
  | nil => simp
  | cons tp L ih =>
    simp only [List.map_cons, List.sum_cons]
    have h1 : 0 ≤ tp.1 := hw tp (by simp)
    have h2 : tp.2 ≤ hi := hb tp (by simp)
    have ihh := ih (fun q hq => hw q (List.mem_cons_of_mem _ hq))
      (fun q hq => hb q (List.mem_cons_of_mem _ hq))
    nlinarith [mul_le_mul_of_nonneg_left h2 h1]

/-- The insufficient-liquidity throw happens exactly when the list's total
available size is strictly below the requested size (for nonnegative level
sizes). -/
theorem estimateRaw_error_iff (orders : List BookOrder) (size : ℚ)
    (hsz : ∀ o ∈ orders, 0 ≤ o.size) :
    estimateMarketOrderPriceRaw orders size
        = Except.error "Insufficient liquidity to execute market order of this size"
      ↔ (orders.map BookOrder.size).sum < size := by
  have hloop := estimateLoop_remaining_pos orders 0 size hsz
  simp only [estimateMarketOrderPriceRaw]
  by_cases hpos : 0 < (estimateLoop 0 size orders).2
  · rw [if_pos hpos]
    simp [hloop.mp hpos]
  · rw [if_neg hpos]
    constructor
    · intro h
      exact Except.noConfusion h
    · intro h
      exact absurd (hloop.mpr h) hpos

/-- Under the same conditions, the full estimate (with its final division)
throws the same error. -/
theorem estimateMarketOrderPrice_insufficient (orders : List BookOrder) (size : ℚ)
    (hsz : ∀ o ∈ orders, 0 ≤ o.size)
    (hlt : (orders.map BookOrder.size).sum < size) :
    estimateMarketOrderPrice orders size
      = Except.error "Insufficient liquidity to execute market order of this size" := by
  unfold estimateMarketOrderPrice
  rw [(estimateRaw_error_iff orders size hsz).mpr hlt]
  simp [Except.map]

/-! ## C10: liquidity guard and the unguarded division -/

/-- C10: `estimateMarketOrderPrice` throws the insufficient-liquidity error
exactly when the total size available on the list is strictly smaller than
the requested size; for a request of size 0 it does not fail, and the final
division is performed unguarded with numerator 0 and denominator 0 — the
quotient `0 / 0` (`NaN` in the source's float arithmetic; the pair returned
by `estimateMarketOrderPriceRaw` records numerator and denominator exactly). -/
theorem C10_liquidity_guard (orders : List BookOrder) (size : ℚ)
    (hsz : ∀ o ∈ orders, 0 ≤ o.size) :
    (estimateMarketOrderPriceRaw orders size
        = Except.error "Insufficient liquidity to execute market order of this size"
      ↔ (orders.map BookOrder.size).sum < size)
    ∧ estimateMarketOrderPriceRaw orders 0 = Except.ok (0, 0)
    ∧ estimateMarketOrderPrice orders 0 = Except.ok ((0 : ℚ) / 0) := by
  have hz := estimateLoop_zero orders hsz
  refine ⟨estimateRaw_error_iff orders size hsz, ?_, ?_⟩
  · simp only [estimateMarketOrderPriceRaw]
    rw [hz]
    norm_num
  · simp only [estimateMarketOrderPrice, estimateMarketOrderPriceRaw]
    rw [hz]
    norm_num [Except.map]

/-- A one-level book with 2 units at price 10. -/
def ordersW10 : List BookOrder := [{ price := 10, size := 2, orderId := "x", side := "sell" }]

/-- Witness for C10: on a book holding 2 units, a request for 5 throws the
insufficient-liquidity error, and a request for 0 returns the pair (0, 0). -/
theorem C10_liquidity_guard_witness :
    estimateMarketOrderPriceRaw ordersW10 5
      = Except.error "Insufficient liquidity to execute market order of this size"
    ∧ estimateMarketOrderPriceRaw ordersW10 0 = Except.ok (0, 0) := by
  have h5 := C10_liquidity_guard ordersW10 5 (by norm_num [ordersW10])
  have h0 := C10_liquidity_guard ordersW10 0 (by norm_num [ordersW10])
  exact ⟨h5.1.mpr (by norm_num [ordersW10]), h0.2.1⟩

/-! ## C9: the market-order estimate is a size-weighted average -/

/-- C9: with positive level sizes and a positive request not exceeding total
availability, `estimateMarketOrderPrice` returns the sum of
`min(remaining, order.size) * order.price` over the consumed levels divided
by the requested size, and that value lies between any lower and upper bound
of the consumed prices (in particular between their minimum and maximum). -/
theorem C9_weighted_average (orders : List BookOrder) (size : ℚ)
    (hpos : ∀ o ∈ orders, 0 < o.size) (h0 : 0 < size)
    (hle : size ≤ (orders.map BookOrder.size).sum) :
    estimateMarketOrderPrice orders size
      = Except.ok (((consumedLevels size orders).map (fun tp => tp.1 * tp.2)).sum / size)
    ∧ ∀ lo hi, (∀ tp ∈ consumedLevels size orders, lo ≤ tp.2 ∧ tp.2 ≤ hi) →
        lo ≤ ((consumedLevels size orders).map (fun tp => tp.1 * tp.2)).sum / size
        ∧ ((consumedLevels size orders).map (fun tp => tp.1 * tp.2)).sum / size ≤ hi := by
  have hszs : ∀ o ∈ orders, 0 ≤ o.size := fun o ho => (hpos o ho).le
  have hnotpos : ¬ 0 < (estimateLoop 0 size orders).2 := by
    rw [estimateLoop_remaining_pos orders 0 size hszs]
    linarith
  have hcost := estimateLoop_cost orders 0 size
  constructor
  · simp only [estimateMarketOrderPrice, estimateMarketOrderPriceRaw]
    rw [if_neg hnotpos]
    simp [Except.map, hcost]
  · intro lo hi hb
    have htk := consumedLevels_takes orders size h0 hle
    have hnn := consumedLevels_take_nonneg orders size h0 hpos
    have hlow := weighted_sum_lower (consumedLevels size orders) lo hnn
      (fun tp htp => (hb tp htp).1)
    have hup := weighted_sum_upper (consumedLevels size orders) hi hnn
      (fun tp htp => (hb tp htp).2)
    rw [htk] at hlow hup
    constructor
    · rw [le_div_iff₀ h0]
      exact hlow
    · rw [div_le_iff₀ h0]
      linarith

/-- A two-level book: 2 units at 10 then 3 units at 20. -/
def ordersW9 : List BookOrder :=
  [{ price := 10, size := 2, orderId := "x", side := "sell" },
   { price := 20, size := 3, orderId := "y", side := "sell" }]

/-- Witness for C9: buying 4 units consumes 2@10 and 2@20, an average of 15,
which lies between 10 and 20. -/
theorem C9_weighted_average_witness :
    estimateMarketOrderPrice ordersW9 4
      = Except.ok (((consumedLevels 4 ordersW9).map (fun tp => tp.1 * tp.2)).sum / 4)
    ∧ (10:ℚ) ≤ ((consumedLevels 4 ordersW9).map (fun tp => tp.1 * tp.2)).sum / 4
    ∧ ((consumedLevels 4 ordersW9).map (fun tp => tp.1 * tp.2)).sum / 4 ≤ 20 := by
  have h := C9_weighted_average ordersW9 4 (by norm_num [ordersW9]) (by norm_num)
    (by norm_num [ordersW9])
  have hb := h.2 10 20 (by norm_num [ordersW9, consumedLevels, min_def])
  exact ⟨h.1, hb.1, hb.2⟩

/-! ## C2: market orders exceeding opposing liquidity -/

theorem mkItems_sizes (sideTag : String) (l2 : List (ℚ × ℚ × String)) :
    (mkItems sideTag l2).map BookOrder.size = l2.map (fun t => t.2.1) := by
  simp only [mkItems, List.map_map]
  rfl

theorem mkItems_size_nonneg (sideTag : String) (l2 : List (ℚ × ℚ × String))
    (h : ∀ t ∈ l2, 0 ≤ t.2.1) : ∀ o ∈ mkItems sideTag l2, 0 ≤ o.size := by
  intro o ho
  obtain ⟨t, ht, rfl⟩ := List.mem_map.mp ho
  exact h t ht

/-- A market environment whose book offers a single ask of 1 unit at 100. -/
def marketEnvC2 : MarketEnv :=
  { market := Except.ok { marketId := 1 }
    l2 := Except.ok ([], [(100, 1, "a1")])
    limitEnv := limitEnvOk }

/-- A buy market order for 2 units against that book. -/
def marketParamsC2 : MarketOrderParams :=
  { marketAddress := "MKT", side := "buy", size := 2 }

/-- C2 (counterexample): a buy for 2 units against an ask side holding only 1
unit makes `placeMarketOrder` return `{success: false, error: 'Insufficient
liquidity ...'}` — the insufficient liquidity IS surfaced as an error, no
order is placed, and no `PartiallyFilled` status exists (the result object
has no status field at all). -/
theorem C2_counterexample :
    (placeMarketOrder marketEnvC2 "W" marketParamsC2).success = false
    ∧ (placeMarketOrder marketEnvC2 "W" marketParamsC2).error
        = some "Insufficient liquidity to execute market order of this size" := by
  have hest : placeMarketOrderEstimate marketEnvC2 marketParamsC2
      = Except.error "Insufficient liquidity to execute market order of this size" := by
    simp only [placeMarketOrderEstimate, marketEnvC2, marketParamsC2, exc_bind_ok]
    norm_num [getOrderBook, mkItems, estimateMarketOrderPrice,
      estimateMarketOrderPriceRaw, estimateLoop, min_def, Except.map]
  unfold placeMarketOrder
  rw [hest]
  exact ⟨rfl, rfl⟩

/-- C2 (amended): when the requested size strictly exceeds the total quantity
on the opposing side (asks for a buy, bids for a sell), `placeMarketOrder`
reports the failure as `{success: false, error: 'Insufficient liquidity to
execute market order of this size'}` — the remainder is not partially filled
and no order is placed; the error message, not a `PartiallyFilled` status,
carries the outcome. -/
theorem C2_insufficient_liquidity (env : MarketEnv) (wallet : String)
    (p : MarketOrderParams) (m : Market)
    (bidsL2 asksL2 : List (ℚ × ℚ × String))
    (hm : env.market = Except.ok m)
    (hl2 : env.l2 = Except.ok (bidsL2, asksL2))
    (hbuy : p.side = "buy" →
      (∀ t ∈ asksL2, 0 ≤ t.2.1) ∧ (asksL2.map (fun t => t.2.1)).sum < p.size)
    (hsell : p.side ≠ "buy" →
      (∀ t ∈ bidsL2, 0 ≤ t.2.1) ∧ (bidsL2.map (fun t => t.2.1)).sum < p.size) :
    placeMarketOrder env wallet p
      = { success := false,
          error := some "Insufficient liquidity to execute market order of this size" } := by
  have hest : placeMarketOrderEstimate env p
      = Except.error "Insufficient liquidity to execute market order of this size" := by
    unfold placeMarketOrderEstimate
    rw [hm, exc_bind_ok, hl2, exc_bind_ok]
    by_cases hs : p.side = "buy"
    · rw [if_pos hs]
      obtain ⟨hnn, hlt⟩ := hbuy hs
      apply estimateMarketOrderPrice_insufficient
      · rw [getOrderBook_asks]
        exact mkItems_size_nonneg _ _ hnn
      · rw [getOrderBook_asks, mkItems_sizes]
        exact hlt
    · rw [if_neg hs]
      obtain ⟨hnn, hlt⟩ := hsell hs
      apply estimateMarketOrderPrice_insufficient
      · rw [getOrderBook_bids]
        exact mkItems_size_nonneg _ _ hnn
      · rw [getOrderBook_bids, mkItems_sizes]
        exact hlt
  unfold placeMarketOrder
  rw [hest]

/-- Witness for C2's amended statement: the concrete one-ask book again. -/
theorem C2_insufficient_liquidity_witness :
    placeMarketOrder marketEnvC2 "W" marketParamsC2
      = { success := false,
          error := some "Insufficient liquidity to execute market order of this size" } :=
  C2_insufficient_liquidity marketEnvC2 "W" marketParamsC2 { marketId := 1 }
    [] [(100, 1, "a1")] rfl rfl
    (fun _ => ⟨by norm_num, by norm_num [marketParamsC2]⟩)
    (fun hne => absurd rfl hne)

/-! ## C3: the 24h price change of getMarketStats -/

theorem exists_getLast? {α : Type} : ∀ (l : List α), l ≠ [] → ∃ x, l.getLast? = some x
  | [], h => absurd rfl h
  | [a], _ => ⟨a, rfl⟩
  | a :: b :: bs, _ => by
    rw [List.getLast?_cons_cons]
    exact exists_getLast? (b :: bs) (by simp)

/-- In a list sorted most-recent-first (each later element no newer than any
earlier one), the last element is a member and has minimal timestamp. -/
theorem sorted_getLast?_min (l : List Trade) :
    l.Pairwise (fun a b => b.time ≤ a.time) →
      ∀ x, l.getLast? = some x → x ∈ l ∧ ∀ t ∈ l, x.time ≤ t.time := by
  induction l with
  | nil =>
    intro _ x hx
    exact Option.noConfusion hx
  | cons a as ih =>
    intro hs x hx
    rw [List.pairwise_cons] at hs
    obtain ⟨ha, hs'⟩ := hs
    cases as with
    | nil =>
      simp only [List.getLast?_singleton, Option.some.injEq] at hx
      subst hx
      refine ⟨List.mem_singleton_self a, ?_⟩
      intro t ht
      rw [List.mem_singleton.mp ht]
    | cons b bs =>
      rw [List.getLast?_cons_cons] at hx
      obtain ⟨hmem, hmin⟩ := ih hs' x hx
      refine ⟨List.mem_cons_of_mem _ hmem, ?_⟩
      intro t ht
      rcases List.mem_cons.mp ht with rfl | ht'
      · exact ha x hmem
      · exact hmin t ht'

/-- C3: on a most-recent-first trade list, when at least one trade lies in
the trailing 24-hour window, `priceChange` is
`(latest − oldest-in-window) / oldest-in-window * 100` where `latest` is the
most recent trade (the head, whose timestamp bounds all others) and
`oldest-in-window` is an in-window trade of minimal timestamp; with no trade
in the window, `priceChange` is 0. -/
theorem C3_priceChange (now : ℤ) (recentTrades : List Trade)
    (hsorted : recentTrades.Pairwise (fun a b => b.time ≤ a.time)) :
    ((∃ t ∈ recentTrades, inWindow now t = true) →
      ∃ latest oldest,
        recentTrades.head? = some latest
        ∧ (∀ t ∈ recentTrades, t.time ≤ latest.time)
        ∧ oldest ∈ recentTrades ∧ inWindow now oldest = true
        ∧ (∀ t ∈ recentTrades, inWindow now t = true → oldest.time ≤ t.time)
        ∧ (getMarketStats now recentTrades).priceChange
            = (latest.price - oldest.price) / oldest.price * 100)
    ∧ ((∀ t ∈ recentTrades, inWindow now t = false) →
        (getMarketStats now recentTrades).priceChange = 0) := by
  constructor
  · rintro ⟨w, hw, hwin⟩
    cases recentTrades with
    | nil => cases hw
    | cons a tl =>
      have hFne : (a :: tl).filter (inWindow now) ≠ [] := by
        intro h0
        have hmem : w ∈ (a :: tl).filter (inWindow now) :=
          List.mem_filter.mpr ⟨hw, hwin⟩
        rw [h0] at hmem
        cases hmem
      obtain ⟨x, hx⟩ := exists_getLast? _ hFne
      have hFsorted : ((a :: tl).filter (inWindow now)).Pairwise
          (fun a b => b.time ≤ a.time) :=
        List.Pairwise.sublist (List.filter_sublist _) hsorted
      obtain ⟨hxmem, hxmin⟩ := sorted_getLast?_min _ hFsorted x hx
      have hxmemT : x ∈ a :: tl := (List.mem_filter.mp hxmem).1
      have hxwin : inWindow now x = true := (List.mem_filter.mp hxmem).2
      refine ⟨a, x, rfl, ?_, hxmemT, hxwin, ?_, ?_⟩
      · intro t ht
        rcases List.mem_cons.mp ht with rfl | ht'
        · exact le_refl _
        · exact (List.pairwise_cons.mp hsorted).1 t ht'
      · intro t ht htw
        exact hxmin t (List.mem_filter.mpr ⟨ht, htw⟩)
      · show (match ((a :: tl).filter (inWindow now)).getLast? with
              | some o => (a.price - o.price) / o.price * 100
              | none => 0)
            = (a.price - x.price) / x.price * 100
        rw [hx]
  · intro hnone
    have hF : recentTrades.filter (inWindow now) = [] := by
      rw [List.filter_eq_nil_iff]
      intro t ht
      simp [hnone t ht]
    cases recentTrades with
    | nil => rfl
    | cons a tl =>
      have hnil : ((a :: tl).filter (inWindow now)).getLast? = none := by
        rw [hF]
        rfl
      show (match ((a :: tl).filter (inWindow now)).getLast? with
            | some o => (a.price - o.price) / o.price * 100
            | none => (0:ℚ))
          = (0:ℚ)
      rw [hnil]

/-- Three trades listed most-recent-first around `now = 100000000` ms: two in
the 24h window (110 then 100) and one 24h+ old. -/
def tradesW3 : List Trade :=
  [{ price := 110, size := 1, time := 99999000 },
   { price := 100, size := 1, time := 96400000 },
   { price := 50, size := 2, time := 10 }]

/-- Witness for C3: on the concrete sorted list, a trade lies in the window
and the computed price change is (110 − 100)/100 × 100 = 10. -/
theorem C3_priceChange_witness :
    (∃ t ∈ tradesW3, inWindow 100000000 t = true)
    ∧ (getMarketStats 100000000 tradesW3).priceChange = 10 := by
  have h := (C3_priceChange 100000000 tradesW3 (by decide)).1
    ⟨{ price := 110, size := 1, time := 99999000 }, by decide, by decide⟩
  obtain ⟨latest, oldest, hhead, hlmax, homem, howin, homin, hpc⟩ := h
  refine ⟨⟨{ price := 110, size := 1, time := 99999000 }, by decide, by decide⟩, ?_⟩
  rw [hpc]
  have hl : latest = { price := 110, size := 1, time := 99999000 } := by
    have hh : tradesW3.head? = some { price := 110, size := 1, time := 99999000 } := rfl
    rw [hh] at hhead
    simpa using hhead.symm
  have ho : oldest = { price := 100, size := 1, time := 96400000 } := by
    have h2 := homin { price := 100, size := 1, time := 96400000 } (by decide) (by decide)
    fin_cases homem
    · exfalso
      norm_num at h2
    · rfl
    · exfalso
      exact absurd howin (by decide)
  rw [hl, ho]
  norm_num

/-! ## C8: the marketCache registry -/

theorem lookup_append_some {β : Type} (l l2 : List (String × β)) (k : String) (v : β)
    (h : l.lookup k = some v) : (l ++ l2).lookup k = some v := by
  induction l with
  | nil => exact Option.noConfusion h
  | cons p t ih =>
    obtain ⟨k1, w⟩ := p
    cases hk : (k == k1) with
    | true =>
      rw [List.cons_append]
      simp only [List.lookup, hk] at h ⊢
      exact h
    | false =>
      rw [List.cons_append]
      simp only [List.lookup, hk] at h ⊢
      exact ih h

theorem lookup_append_singleton_self {β : Type} (l : List (String × β))
    (addr : String) (m : β) (h : l.lookup addr = none) :
    (l ++ [(addr, m)]).lookup addr = some m := by
  induction l with
  | nil => simp [List.lookup]
  | cons p t ih =>
    obtain ⟨k1, w⟩ := p
    cases hk : (addr == k1) with
    | true =>
      simp only [List.lookup, hk] at h
      exact Option.noConfusion h
    | false =>
      rw [List.cons_append]
      simp only [List.lookup, hk] at h ⊢
      exact ih h

/-- One `getMarket` call never removes a cache entry. -/
theorem getMarketState_mono (load : String → Except String Market) (st : CacheState)
    (addr k : String) (v : Market) (h : st.marketCache.lookup k = some v) :
    (getMarketState load st addr).marketCache.lookup k = some v := by
  unfold getMarketState getMarket
  rcases hl : st.marketCache.lookup addr with _ | m
  · rcases he : load addr with e | m2
    · exact h
    · exact lookup_append_some _ _ _ _ h
  · exact h

/-- A whole sequence of `getMarket` calls never removes a cache entry. -/
theorem runGetMarkets_mono
    (calls : List ((String → Except String Market) × String)) :
    ∀ (st : CacheState) (k : String) (v : Market),
      st.marketCache.lookup k = some v →
      (runGetMarkets calls st).marketCache.lookup k = some v := by
  induction calls with
  | nil => intro st k v h; exact h
  | cons c cs ih =>
    intro st k v h
    exact ih _ k v (getMarketState_mono c.1 st c.2 k v h)

/-- C8: the `marketCache` registry is created empty by the constructor,
filled on the first successful `getMarket` for an address, hit (same
instance, zero loads, unchanged state) on every subsequent call, left
untouched by a failed load (which rethrows), and never loses an entry under
any sequence of `getMarket` calls — the only cache accesses any operation of
`SolanaOrderBook` performs. -/
theorem C8_marketCache (load load2 : String → Except String Market)
    (st : CacheState) (addr : String) :
    (∀ k, initialCacheState.marketCache.lookup k = none)
    ∧ (∀ m, st.marketCache.lookup addr = some m →
        getMarket load st addr = (Except.ok (m, st), 0))
    ∧ (∀ m, st.marketCache.lookup addr = none → load addr = Except.ok m →
        getMarket load st addr
          = (Except.ok (m, { marketCache := st.marketCache ++ [(addr, m)] }), 1)
        ∧ (getMarketState load st addr).marketCache.lookup addr = some m
        ∧ getMarket load2 (getMarketState load st addr) addr
            = (Except.ok (m, getMarketState load st addr), 0))
    ∧ (∀ e, st.marketCache.lookup addr = none → load addr = Except.error e →
        (getMarket load st addr).1 = Except.error ("Failed to load market: " ++ e)
        ∧ getMarketState load st addr = st)
    ∧ (∀ calls k v, st.marketCache.lookup k = some v →
        (runGetMarkets calls st).marketCache.lookup k = some v) := by
  refine ⟨fun k => rfl, ?_, ?_, ?_, fun calls k v h => runGetMarkets_mono calls st k v h⟩
  · intro m hm
    unfold getMarket
    rw [hm]
  · intro m hnone hload
    have hstate : getMarketState load st addr
        = { marketCache := st.marketCache ++ [(addr, m)] } := by
      unfold getMarketState getMarket
      rw [hnone, hload]
    have hget : getMarket load st addr
        = (Except.ok (m, { marketCache := st.marketCache ++ [(addr, m)] }), 1) := by
      unfold getMarket
      rw [hnone, hload]
    have hlook : (getMarketState load st addr).marketCache.lookup addr = some m := by
      rw [hstate]
      exact lookup_append_singleton_self _ _ _ hnone
    refine ⟨hget, hlook, ?_⟩
    unfold getMarket
    rw [hlook]
  · intro e hnone hload
    constructor
    · unfold getMarket
      rw [hnone, hload]
    · unfold getMarketState getMarket
      rw [hnone, hload]

/-- A load environment resolving only address A. -/
def loadW : String → Except String Market :=
  fun a => if a = "A" then Except.ok { marketId := 7 } else Except.error "boom"

/-- The cache after the first successful load of A. -/
def cacheAfterA : CacheState := { marketCache := [("A", { marketId := 7 })] }

/-- Witness for C8: from the empty constructor cache, loading A caches it
(one network load), a second call hits the cache (zero loads, same
instance), and a failing load of B throws and caches nothing. -/
theorem C8_marketCache_witness :
    getMarket loadW initialCacheState "A"
      = (Except.ok ({ marketId := 7 }, cacheAfterA), 1)
    ∧ getMarket loadW cacheAfterA "A"
      = (Except.ok ({ marketId := 7 }, cacheAfterA), 0)
    ∧ (getMarket loadW cacheAfterA "B").1
      = Except.error "Failed to load market: boom"
    ∧ getMarketState loadW cacheAfterA "B" = cacheAfterA := by
  obtain ⟨hget, hlook, hsec⟩ := (C8_marketCache loadW loadW initialCacheState "A").2.2.1
    { marketId := 7 } rfl rfl
  have hnB : cacheAfterA.marketCache.lookup "B" = none := by decide
  have hlB : loadW "B" = Except.error "boom" := rfl
  obtain ⟨hErr, hState⟩ := (C8_marketCache loadW loadW cacheAfterA "B").2.2.2.1
    "boom" hnB hlB
  have hcache : getMarketState loadW initialCacheState "A" = cacheAfterA := by
    unfold getMarketState
    rw [hget]
    rfl
  refine ⟨?_, ?_, hErr, hState⟩
  · rw [hget]
    rfl
  · rw [← hcache]
    exact hsec

end SolanaDex
